import Mathlib

/-!
# Verification of the dnsx option-configuration subsystem

Shallow embedding of `internal/runner/options.go`: the rcode-filter
construction (`configureRcodes`), the input-mode validation
(`validateOptions`), the resume-checkpoint queries
(`ShouldLoadResume` / `ShouldSaveResume`, `configureResume`) and the
orchestration order of `ParseOptions`.

Modelling conventions:
* Go's `map[int]struct{}` is a `Finset Int`.
* Go's `strings.Split(s, ",")` is `goSplitComma` below: the string cut
  at every comma, `Split("", ",") = [""]`, `n+1` fields for `n` commas.
  (It is defined by structural recursion on the character list rather
  than through `String.splitOn` so that the kernel can evaluate it.)
* Go's `strings.ToLower` is `goToLower` below (faithful on ASCII input;
  the symbolic table only holds ASCII names).
* `strconv.Atoi` is modelled by `goAtoi` below (optional sign, decimal
  digits, 64-bit signed range, error otherwise).
* Functions that mutate the `Options` struct and return an `error`
  become functions `Options → Option String × Options`: the first
  component is the returned error (`none` = `nil`), the second is the
  struct state after the call, including mutations performed before an
  early error return.
* Process-external facts (existence of `resume.cfg` on disk, the result
  of deserialising it) are a `World` parameter.
-/

namespace Dnsx

/-- Go `strings.ToLower` (ASCII): lower-case every character. -/
def goToLower (s : String) : String :=
  String.mk (s.data.map Char.toLower)

/-- Helper for `goSplitComma`: walk the characters, `cur` holds the
(reversed) characters of the field being accumulated. -/
def splitCommaAux : List Char → List Char → List String
  | [], cur => [String.mk cur.reverse]
  | c :: rest, cur =>
    if c = ',' then String.mk cur.reverse :: splitCommaAux rest []
    else splitCommaAux rest (c :: cur)

/-- Go `strings.Split(s, ",")`: the fields of `s` cut at every comma;
an input with `n` commas yields `n + 1` fields, in particular
`Split("", ",") = [""]`. -/
def goSplitComma (s : String) : List String :=
  splitCommaAux s.data []

/-- Go `strconv.Atoi`: optional `+`/`-` sign followed by one or more
decimal digits, value within the 64-bit signed range; any other string
is an error (`none`). Whitespace is not skipped. -/
def goAtoi (s : String) : Option Int :=
  let cs := s.data
  let sd : Int × List Char :=
    match cs with
    | '+' :: rest => (1, rest)
    | '-' :: rest => (-1, rest)
    | _ => (1, cs)
  if sd.2.isEmpty then none
  else if sd.2.all Char.isDigit then
    let n : Nat := sd.2.foldl (fun a c => 10 * a + (c.toNat - 48)) 0
    let v : Int := sd.1 * (n : Int)
    if -(2 ^ 63) ≤ v ∧ v ≤ 2 ^ 63 - 1 then some v else none
  else none

/-- The fixed symbolic rcode table of `configureRcodes` (the cases of the
`switch` other than `""` and `default`), keyed by the lower-cased token. -/
def symbolicRcode : String → Option Int
  | "noerror" => some 0
  | "formerr" => some 1
  | "servfail" => some 2
  | "nxdomain" => some 3
  | "notimp" => some 4
  | "refused" => some 5
  | "yxdomain" => some 6
  | "yxrrset" => some 7
  | "nxrrset" => some 8
  | "notauth" => some 9
  | "notzone" => some 10
  | "badsig" => some 16
  | "badvers" => some 16
  | "badkey" => some 17
  | "badtime" => some 18
  | "badmode" => some 19
  | "badname" => some 20
  | "badalg" => some 21
  | "badtrunc" => some 22
  | "badcookie" => some 23
  | _ => none

/-- Outcome of one iteration of the token loop in `configureRcodes`:
`skip` is the `case "": continue`, `code rc` a resolved code (from the
table or from `strconv.Atoi`), `invalid` the `default` branch where
`strconv.Atoi` fails. -/
inductive TokenResult where
  | skip : TokenResult
  | code (rc : Int) : TokenResult
  | invalid : TokenResult
deriving DecidableEq, Repr

/-- One iteration of the `switch strings.ToLower(rcode)` in
`configureRcodes`: the empty token is skipped, a table name resolves via
`symbolicRcode`, anything else falls through to `strconv.Atoi` applied
to the original (un-lowered) token. -/
def resolveToken (tok : String) : TokenResult :=
  let low := goToLower tok
  if low = "" then .skip
  else
    match symbolicRcode low with
    | some rc => .code rc
    | none =>
      match goAtoi tok with
      | some rc => .code rc
      | none => .invalid

/-- The code a token contributes to the rcode set, if any. -/
def tokenCode (tok : String) : Option Int :=
  match resolveToken tok with
  | .code rc => some rc
  | _ => none

/-- Whether a token passes the loop without triggering the
`invalid rcode value` error. -/
def tokenOk (tok : String) : Bool :=
  match resolveToken tok with
  | .invalid => false
  | _ => true

/-- Modelled from the spec: the `ResumeCheckpoint` record (`ResumeCfg` in
the source tree, its defining file is not part of the provided source) is
"an opaque structured record whose schema belongs to the resolution
engine"; we model it as an opaque payload whose default value is the
empty/fresh checkpoint `&ResumeCfg{}`. -/
structure ResumeCfg where
  payload : String := ""
deriving DecidableEq, Repr

/-- The fields of the Go `Options` struct that the configuration and
validation functions under verification read or write.  The remaining
fields (query toggles, rate limits, output and tracing knobs) are plain
flag storage never touched by `configureRcodes`, `configureResume` or
`validateOptions` and are omitted.  Defaults are the Go zero values of
`&Options{}`. -/
structure Options where
  hosts : String := ""
  domains : String := ""
  wordList : String := ""
  response : Bool := false
  responseOnly : Bool := false
  rcode : String := ""
  rcodes : Finset Int := ∅
  hasRCodes : Bool := false
  resume : Bool := false
  resumeCfg : ResumeCfg := {}
  version : Bool := false
deriving DecidableEq

/-- The token loop of `configureRcodes`: `acc` is the
`options.rcodes` map being filled.  On the first invalid token the loop
returns the `invalid rcode value` error together with the map as filled
so far (the Go code mutates `options.rcodes` in place before the early
`return`). -/
def runTokens : List String → Finset Int → Option String × Finset Int
  | [], acc => (none, acc)
  | tok :: rest, acc =>
    match resolveToken tok with
    | .skip => runTokens rest acc
    | .code rc => runTokens rest (insert rc acc)
    | .invalid => (some "invalid rcode value", acc)

/-- Embeds `(*Options).configureRcodes`: reset `rcodes`, split the `-rcode`
string on commas, run the token loop; on success set `hasRCodes` iff the
input string was non-empty and default the set to `{0}` when it ended up
empty. -/
def configureRcodes (o : Options) : Option String × Options :=
  match runTokens (goSplitComma o.rcode) ∅ with
  | (some e, acc) => (some e, { o with rcodes := acc })
  | (none, acc) =>
    if acc = ∅ then
      (none, { o with rcodes := {0}, hasRCodes := o.rcode != "" })
    else
      (none, { o with rcodes := acc, hasRCodes := o.rcode != "" })

/-- Modelled from the spec: the standard-input marker, "a sentinel value
for an input field meaning read this input stream from the process's
standard input"; the constant `stdinMarker` is declared outside the
provided source, its conventional value is `"-"`.  (None of the theorems
below depend on the literal value, only on `argumentHasStdin`.) -/
def stdinMarker : String := "-"

/-- Embeds `argumentHasStdin` from the source: field equals the marker. -/
def argumentHasStdin (arg : String) : Bool :=
  arg == stdinMarker

/-- The five fatal rules of `validateOptions`, in source order. -/
inductive ValidationError where
  | respBoth : ValidationError
  | hostsWithBruteforce : ValidationError
  | wordlistWithoutDomain : ValidationError
  | domainWithoutWordlist : ValidationError
  | doubleStdin : ValidationError
deriving DecidableEq, Repr

/-- Embeds `(*Options).validateOptions`: each `gologger.Fatal` terminates the
process, so the function is modelled as returning the first violated
rule (`none` = all checks pass silently). -/
def validateOptions (o : Options) : Option ValidationError :=
  if o.response && o.responseOnly then some .respBoth
  else
    let wordListPresent := o.wordList != ""
    let domainsPresent := o.domains != ""
    let hostsPresent := o.hosts != ""
    if hostsPresent && (wordListPresent || domainsPresent) then
      some .hostsWithBruteforce
    else if wordListPresent && !domainsPresent then some .wordlistWithoutDomain
    else if domainsPresent && !wordListPresent then some .domainWithoutWordlist
    else if argumentHasStdin o.domains && argumentHasStdin o.wordList then
      some .doubleStdin
    else none

/-- The process-external environment: whether the checkpoint file
`resume.cfg` exists (`fileutil.FileExists DefaultResumeFile`), and what
`goconfig.Load` would produce from it. -/
structure World where
  resumeFileExists : Bool
  resumeLoad : Except String ResumeCfg

/-- Embeds `(*Options).ShouldLoadResume`: resume requested and `resume.cfg`
exists. -/
def shouldLoadResume (o : Options) (w : World) : Bool :=
  o.resume && w.resumeFileExists

/-- Embeds `(*Options).ShouldSaveResume`: unconditionally `true`. -/
def shouldSaveResume (_o : Options) : Bool :=
  true

/-- Embeds `(*Options).configureResume`: always set `resumeCfg` to the fresh
checkpoint `&ResumeCfg{}`; only when resume was requested and the file
exists, deserialise it, propagating a load error. -/
def configureResume (o : Options) (w : World) : Option String × Options :=
  let o1 : Options := { o with resumeCfg := {} }
  if o1.resume && w.resumeFileExists then
    match w.resumeLoad with
    | .error e => (some e, o1)
    | .ok cfg => (none, { o1 with resumeCfg := cfg })
  else (none, o1)

/-- Process outcome of `ParseOptions` after flag parsing: the fatal
exits, the version short-circuit (`os.Exit(0)`), or the returned
options. -/
inductive ParseOutcome where
  | fatalRcodes (e : String) : ParseOutcome
  | fatalResume (e : String) : ParseOutcome
  | versionExit : ParseOutcome
  | fatalValidation (e : ValidationError) : ParseOutcome
  | ok (o : Options) : ParseOutcome
deriving DecidableEq

/-- The fixed sequencing of `ParseOptions` after `flagSet.Parse`:
`configureRcodes` (fatal on error), `configureResume` (fatal on error),
the version short-circuit, then `validateOptions` (fatal on first
violation).  `configureOutput` and `showBanner` only touch the global
logger and are omitted as they read and write none of the modelled
state. -/
def parseOptionsFlow (o : Options) (w : World) : ParseOutcome :=
  match configureRcodes o with
  | (some e, _) => .fatalRcodes e
  | (none, o1) =>
    match configureResume o1 w with
    | (some e, _) => .fatalResume e
    | (none, o2) =>
      if o2.version then .versionExit
      else
        match validateOptions o2 with
        | some e => .fatalValidation e
        | none => .ok o2

/-! ## Characterisation lemmas -/

lemma splitCommaAux_ne_nil (cs cur : List Char) : splitCommaAux cs cur ≠ [] := by
  induction cs generalizing cur with
  | nil => simp [splitCommaAux]
  | cons c rest ih =>
    by_cases hc : c = ','
    · simp [splitCommaAux, hc]
    · simpa [splitCommaAux, hc] using ih (c :: cur)

lemma goSplitComma_ne_nil (s : String) : goSplitComma s ≠ [] :=
  splitCommaAux_ne_nil s.data []

lemma tokenOk_iff (tok : String) : tokenOk tok = true ↔ resolveToken tok ≠ .invalid := by
  unfold tokenOk
  cases resolveToken tok <;> simp

/-- On a list of tokens that all pass, the loop succeeds and adds exactly
the codes the tokens resolve to. -/
lemma runTokens_ok (toks : List String) (acc : Finset Int)
    (h : ∀ t ∈ toks, tokenOk t = true) :
    runTokens toks acc = (none, acc ∪ (toks.filterMap tokenCode).toFinset) := by
  induction toks generalizing acc with
  | nil => simp [runTokens]
  | cons t ts ih =>
    have ht : tokenOk t = true := h t (List.mem_cons_self t ts)
    have hts : ∀ x ∈ ts, tokenOk x = true := fun x hx => h x (List.mem_cons_of_mem t hx)
    cases hr : resolveToken t with
    | invalid => rw [tokenOk_iff] at ht; exact absurd hr ht
    | skip =>
      have hc : tokenCode t = none := by simp [tokenCode, hr]
      simp [runTokens, hr, ih acc hts, List.filterMap_cons, hc]
    | code rc =>
      have hc : tokenCode t = some rc := by simp [tokenCode, hr]
      simp [runTokens, hr, ih (insert rc acc) hts, List.filterMap_cons, hc,
        Finset.insert_union, Finset.union_insert]

/-- On a list with an invalid token, the loop fails with the
`invalid rcode value` error, the accumulated set holding exactly the
codes of the tokens preceding the first invalid one. -/
lemma runTokens_err (toks : List String) (acc : Finset Int)
    (h : ¬ ∀ t ∈ toks, tokenOk t = true) :
    runTokens toks acc =
      (some "invalid rcode value",
       acc ∪ ((toks.takeWhile tokenOk).filterMap tokenCode).toFinset) := by
  induction toks generalizing acc with
  | nil => exact absurd (by simp) h
  | cons t ts ih =>
    by_cases ht : tokenOk t = true
    · have hts : ¬ ∀ x ∈ ts, tokenOk x = true := by
        intro hall
        exact h fun x hx => by
          rcases List.mem_cons.mp hx with rfl | hx'
          · exact ht
          · exact hall x hx'
      cases hr : resolveToken t with
      | invalid => rw [tokenOk_iff] at ht; exact absurd hr ht
      | skip =>
        have hc : tokenCode t = none := by simp [tokenCode, hr]
        simp [runTokens, hr, ih acc hts, List.takeWhile_cons, ht,
          List.filterMap_cons, hc]
      | code rc =>
        have hc : tokenCode t = some rc := by simp [tokenCode, hr]
        simp [runTokens, hr, ih (insert rc acc) hts, List.takeWhile_cons, ht,
          List.filterMap_cons, hc, Finset.insert_union, Finset.union_insert]
    · cases hr : resolveToken t with
      | invalid =>
        simp [runTokens, hr, List.takeWhile_cons, ht]
      | skip => rw [tokenOk_iff] at ht; simp [hr] at ht
      | code rc => rw [tokenOk_iff] at ht; simp [hr] at ht

/-- The set of codes an input string resolves to, before the `{0}`
defaulting. -/
def resolvedSet (s : String) : Finset Int :=
  ((goSplitComma s).filterMap tokenCode).toFinset

/-- Value of `configureRcodes` on an input whose tokens all pass. -/
lemma configureRcodes_ok_char (o : Options)
    (h : ∀ t ∈ goSplitComma o.rcode, tokenOk t = true) :
    configureRcodes o =
      (none, { o with
        rcodes := if resolvedSet o.rcode = ∅ then {0} else resolvedSet o.rcode,
        hasRCodes := o.rcode != "" }) := by
  simp only [configureRcodes, runTokens_ok (goSplitComma o.rcode) ∅ h,
    Finset.empty_union, resolvedSet]
  by_cases he : ((goSplitComma o.rcode).filterMap tokenCode).toFinset = (∅ : Finset Int)
  · rw [if_pos he, if_pos he]
  · rw [if_neg he, if_neg he]

/-- Value of `configureRcodes` on an input with an invalid token. -/
lemma configureRcodes_err_char (o : Options)
    (h : ¬ ∀ t ∈ goSplitComma o.rcode, tokenOk t = true) :
    configureRcodes o =
      (some "invalid rcode value",
       { o with rcodes :=
          (((goSplitComma o.rcode).takeWhile tokenOk).filterMap tokenCode).toFinset }) := by
  simp only [configureRcodes, runTokens_err (goSplitComma o.rcode) ∅ h,
    Finset.empty_union]

/-- Lemma: `configureRcodes` succeeds iff every token passes. -/
lemma configureRcodes_fst_none_iff (o : Options) :
    (configureRcodes o).1 = none ↔ ∀ t ∈ goSplitComma o.rcode, tokenOk t = true := by
  by_cases h : ∀ t ∈ goSplitComma o.rcode, tokenOk t = true
  · rw [configureRcodes_ok_char o h]; simpa using h
  · rw [configureRcodes_err_char o h]; simpa using h

/-- A token whose lower-casing is a table name resolves to the table's
code. -/
lemma resolveToken_symbolic (s name : String) (rc : Int)
    (hlow : goToLower s = name) (hname : symbolicRcode name = some rc) :
    resolveToken s = .code rc := by
  have hne : name ≠ "" := by
    intro he
    rw [he] at hname
    have hnone : symbolicRcode "" = none := by decide
    rw [hnone] at hname
    exact Option.noConfusion hname
  simp [resolveToken, hlow, hname, hne]

/-- A token whose lower-casing the symbolic table resolves contributes
exactly that code and never trips the error. -/
lemma tokenCode_of_symbolic (tok : String)
    (h : (symbolicRcode (goToLower tok)).isSome = true) :
    tokenCode tok = symbolicRcode (goToLower tok) ∧ tokenOk tok = true := by
  rcases Option.isSome_iff_exists.mp h with ⟨rc, hrc⟩
  have hres := resolveToken_symbolic tok (goToLower tok) rc rfl hrc
  rw [hrc]
  exact ⟨by simp [tokenCode, hres], by simp [tokenOk, hres]⟩

/-! ## Claims -/

/-- C1: every token equal, case-insensitively, to a name of the fixed
symbolic table resolves to exactly the listed numeric code
(noerror=0 … badcookie=23, with badsig and badvers both 16); the input
"noerror,nxdomain" yields the set {0, 3} and "badsig,badvers" yields the
singleton {16}. -/
theorem rcode_table_exact :
    (∀ (s name : String) (rc : Int),
      (name, rc) ∈ [("noerror", (0 : Int)), ("formerr", 1), ("servfail", 2),
        ("nxdomain", 3), ("notimp", 4), ("refused", 5), ("yxdomain", 6),
        ("yxrrset", 7), ("nxrrset", 8), ("notauth", 9), ("notzone", 10),
        ("badsig", 16), ("badvers", 16), ("badkey", 17), ("badtime", 18),
        ("badmode", 19), ("badname", 20), ("badalg", 21), ("badtrunc", 22),
        ("badcookie", 23)] →
      goToLower s = name → resolveToken s = .code rc) ∧
    (configureRcodes { rcode := "noerror,nxdomain" }).1 = none ∧
    (configureRcodes { rcode := "noerror,nxdomain" }).2.rcodes = {0, 3} ∧
    (configureRcodes { rcode := "badsig,badvers" }).1 = none ∧
    (configureRcodes { rcode := "badsig,badvers" }).2.rcodes = {16} := by
  refine ⟨?_, by decide, by decide, by decide, by decide⟩
  intro s name rc hmem hlow
  fin_cases hmem <;> exact resolveToken_symbolic s _ _ hlow (by decide)

theorem rcode_table_exact_witness :
    resolveToken "NoError" = .code 0 ∧ resolveToken "BADVERS" = .code 16 :=
  ⟨rcode_table_exact.1 "NoError" "noerror" 0 (by decide) (by decide),
   rcode_table_exact.1 "BADVERS" "badvers" 16 (by decide) (by decide)⟩

/-- C2 counterexample: tokens are NOT trimmed before lookup — on
"noerror, nxdomain", whose second token carries a leading space,
`configureRcodes` fails with the invalid-rcode error instead of
succeeding with {0, 3}. -/
theorem rcode_whitespace_rejected :
    (configureRcodes { rcode := "noerror, nxdomain" }).1
      = some "invalid rcode value" := by
  decide

/-- C2 amended: for any comma-separated rcode string whose tokens are all
valid symbolic names — in any letter case but with no surrounding
whitespace, since each token is lower-cased but not trimmed before the
table lookup — `configureRcodes` succeeds and the resulting rcode set
equals the union of the tokens' mapped codes. -/
theorem rcode_symbolic_union (s : String)
    (h : ∀ tok ∈ goSplitComma s, (symbolicRcode (goToLower tok)).isSome = true) :
    (configureRcodes { rcode := s }).1 = none ∧
    (configureRcodes { rcode := s }).2.rcodes =
      ((goSplitComma s).filterMap fun tok => symbolicRcode (goToLower tok)).toFinset := by
  have hok : ∀ t ∈ goSplitComma s, tokenOk t = true :=
    fun t ht => (tokenCode_of_symbolic t (h t ht)).2
  have hcongr : (goSplitComma s).filterMap tokenCode =
      (goSplitComma s).filterMap fun tok => symbolicRcode (goToLower tok) :=
    List.filterMap_congr fun t ht => (tokenCode_of_symbolic t (h t ht)).1
  obtain ⟨t0, ts, hcons⟩ := List.exists_cons_of_ne_nil (goSplitComma_ne_nil s)
  have ht0 : t0 ∈ goSplitComma s := by rw [hcons]; exact List.mem_cons_self t0 ts
  rcases Option.isSome_iff_exists.mp (h t0 ht0) with ⟨rc0, hrc0⟩
  have hne : resolvedSet s ≠ ∅ := by
    have hmem0 : rc0 ∈ resolvedSet s := by
      rw [resolvedSet, List.mem_toFinset, List.mem_filterMap]
      exact ⟨t0, ht0, by rw [(tokenCode_of_symbolic t0 (h t0 ht0)).1]; exact hrc0⟩
    exact Finset.ne_empty_of_mem hmem0
  rw [configureRcodes_ok_char { rcode := s } hok]
  refine ⟨rfl, ?_⟩
  show (if resolvedSet s = ∅ then {0} else resolvedSet s) = _
  rw [if_neg hne, resolvedSet, hcongr]

theorem rcode_symbolic_union_witness :
    (configureRcodes { rcode := "NoError,nxdomain" }).1 = none ∧
    (configureRcodes { rcode := "NoError,nxdomain" }).2.rcodes =
      ((goSplitComma "NoError,nxdomain").filterMap
        fun tok => symbolicRcode (goToLower tok)).toFinset :=
  rcode_symbolic_union "NoError,nxdomain" (by decide)

/-- C3 counterexample: on "noerror,bogus" the operation does fail with
the invalid-rcode error, but the options' rcodes field IS left holding
{0} — the code of the token processed before the bad one — contradicting
the claim that it is not. -/
theorem rcode_partial_state_kept :
    (configureRcodes { rcode := "noerror,bogus" }).1 = some "invalid rcode value" ∧
    (configureRcodes { rcode := "noerror,bogus" }).2.rcodes = {0} := by
  decide

/-- C3 amended: on any input containing a token that matches neither the
symbolic table nor the integer grammar, `configureRcodes` fails with the
invalid-rcode error and `ParseOptions` aborts fatally, so no rcode set
reaches the caller; the options' internal rcodes field, however, is left
holding exactly the codes of the tokens preceding the first bad one
(and `hasRCodes` is never set). -/
theorem rcode_invalid_fatal (s : String)
    (h : ¬ ∀ tok ∈ goSplitComma s, tokenOk tok = true) :
    (configureRcodes { rcode := s }).1 = some "invalid rcode value" ∧
    (configureRcodes { rcode := s }).2.rcodes =
      (((goSplitComma s).takeWhile tokenOk).filterMap tokenCode).toFinset ∧
    (configureRcodes { rcode := s }).2.hasRCodes = false ∧
    ∀ w : World, parseOptionsFlow { rcode := s } w
      = .fatalRcodes "invalid rcode value" := by
  have hchar := configureRcodes_err_char { rcode := s } h
  refine ⟨by rw [hchar], by rw [hchar], by rw [hchar], fun w => ?_⟩
  simp [parseOptionsFlow, hchar]

theorem rcode_invalid_fatal_witness :
    (configureRcodes { rcode := "bogus" }).1 = some "invalid rcode value" :=
  (rcode_invalid_fatal "bogus" (by decide)).1

/-- C4 counterexample: the numeric token "-1" is accepted by the integer
fallback, so a successful configuration can hold a negative code — the
set is not a set of non-negative integers. -/
theorem rcode_negative_value :
    (configureRcodes { rcode := "-1" }).1 = none ∧
    (configureRcodes { rcode := "-1" }).2.rcodes = ({-1} : Finset Int) := by
  decide

/-- C4 amended: whenever `configureRcodes` succeeds the resulting rcode
set is a non-empty set of integers (numeric tokens may contribute
negative values); if no token resolved to a code the set is exactly
{0}. -/
theorem rcode_set_nonempty (s : String)
    (h : (configureRcodes { rcode := s }).1 = none) :
    (configureRcodes { rcode := s }).2.rcodes ≠ ∅ ∧
    ((∀ tok ∈ goSplitComma s, tokenCode tok = none) →
      (configureRcodes { rcode := s }).2.rcodes = {0}) := by
  have hok := (configureRcodes_fst_none_iff { rcode := s }).mp h
  rw [configureRcodes_ok_char { rcode := s } hok]
  constructor
  · show (if resolvedSet s = ∅ then {0} else resolvedSet s) ≠ ∅
    by_cases he : resolvedSet s = ∅
    · rw [if_pos he]
      decide
    · rwa [if_neg he]
  · intro hall
    have he : resolvedSet s = ∅ := by
      rw [resolvedSet, List.toFinset_eq_empty_iff, List.filterMap_eq_nil_iff]
      exact hall
    show (if resolvedSet s = ∅ then {0} else resolvedSet s) = {0}
    rw [if_pos he]

theorem rcode_set_nonempty_witness :
    (configureRcodes { rcode := "" }).2.rcodes ≠ ∅ :=
  (rcode_set_nonempty "" (by decide)).1

/-- C5: after a successful `configureRcodes`, `hasRCodes` is true iff
the original rcode string was non-empty, whatever it resolved to: ","
resolves no token yet sets hasRCodes with the set defaulting to {0},
while "" yields {0} with hasRCodes false. -/
theorem hasRCodes_iff_input_nonempty :
    (∀ s : String, (configureRcodes { rcode := s }).1 = none →
      (configureRcodes { rcode := s }).2.hasRCodes = (s != "")) ∧
    ((configureRcodes { rcode := "," }).1 = none ∧
     (configureRcodes { rcode := "," }).2.rcodes = {0} ∧
     (configureRcodes { rcode := "," }).2.hasRCodes = true) ∧
    ((configureRcodes { rcode := "" }).1 = none ∧
     (configureRcodes { rcode := "" }).2.rcodes = {0} ∧
     (configureRcodes { rcode := "" }).2.hasRCodes = false) := by
  refine ⟨?_, by decide, by decide⟩
  intro s hs
  have hok := (configureRcodes_fst_none_iff { rcode := s }).mp hs
  rw [configureRcodes_ok_char { rcode := s } hok]

theorem hasRCodes_iff_input_nonempty_witness :
    (configureRcodes { rcode := "noerror" }).2.hasRCodes = ("noerror" != "") :=
  hasRCodes_iff_input_nonempty.1 "noerror" (by decide)

/-- C6: `validateOptions` fails iff one of its five rules is violated;
with several violations the reported error is that of the first rule in
the fixed order (show-response∧response-only; host-list with wordlist or
domain; wordlist without domain; domain without wordlist; both domain
and wordlist on the standard-input marker); a configuration violating
none of them passes silently. -/
theorem validateOptions_first_violation (o : Options) :
    (validateOptions o = none ↔
      ¬(o.response = true ∧ o.responseOnly = true) ∧
      ¬(o.hosts ≠ "" ∧ (o.wordList ≠ "" ∨ o.domains ≠ "")) ∧
      ¬(o.wordList ≠ "" ∧ o.domains = "") ∧
      ¬(o.domains ≠ "" ∧ o.wordList = "") ∧
      ¬(argumentHasStdin o.domains = true ∧ argumentHasStdin o.wordList = true)) ∧
    ((o.response = true ∧ o.responseOnly = true) →
      validateOptions o = some .respBoth) ∧
    (¬(o.response = true ∧ o.responseOnly = true) →
      (o.hosts ≠ "" ∧ (o.wordList ≠ "" ∨ o.domains ≠ "")) →
      validateOptions o = some .hostsWithBruteforce) ∧
    (¬(o.response = true ∧ o.responseOnly = true) →
      ¬(o.hosts ≠ "" ∧ (o.wordList ≠ "" ∨ o.domains ≠ "")) →
      (o.wordList ≠ "" ∧ o.domains = "") →
      validateOptions o = some .wordlistWithoutDomain) ∧
    (¬(o.response = true ∧ o.responseOnly = true) →
      ¬(o.hosts ≠ "" ∧ (o.wordList ≠ "" ∨ o.domains ≠ "")) →
      ¬(o.wordList ≠ "" ∧ o.domains = "") →
      (o.domains ≠ "" ∧ o.wordList = "") →
      validateOptions o = some .domainWithoutWordlist) ∧
    (¬(o.response = true ∧ o.responseOnly = true) →
      ¬(o.hosts ≠ "" ∧ (o.wordList ≠ "" ∨ o.domains ≠ "")) →
      ¬(o.wordList ≠ "" ∧ o.domains = "") →
      ¬(o.domains ≠ "" ∧ o.wordList = "") →
      (argumentHasStdin o.domains = true ∧ argumentHasStdin o.wordList = true) →
      validateOptions o = some .doubleStdin) := by
  simp only [validateOptions]
  split_ifs with h1 h2 h3 h4 h5 <;>
    simp_all [Bool.and_eq_true, Bool.or_eq_true, bne_iff_ne, Bool.not_eq_true]

theorem validateOptions_first_violation_witness :
    validateOptions { domains := "example.com", wordList := "words.txt" } = none ∧
    validateOptions { response := true, responseOnly := true, hosts := "h" }
      = some .respBoth :=
  ⟨(validateOptions_first_violation
      { domains := "example.com", wordList := "words.txt" }).1.mpr (by decide),
   (validateOptions_first_violation
      { response := true, responseOnly := true, hosts := "h" }).2.1 (by decide)⟩

lemma configureRcodes_version (o : Options) :
    ((configureRcodes o).2).version = o.version := by
  unfold configureRcodes
  rcases hrt : runTokens (goSplitComma o.rcode) ∅ with ⟨e, acc⟩
  cases e
  · dsimp only
    split <;> rfl
  · rfl

lemma configureResume_version (o : Options) (w : World) :
    ((configureResume o w).2).version = o.version := by
  unfold configureResume
  by_cases h : (o.resume && w.resumeFileExists) = true
  · rcases w.resumeLoad <;> simp [h]
  · simp [h]

/-- C7: with the version flag set, `ParseOptions` prints the version and
exits successfully before the validation rules are checked — it never
reports a validation error even for a rule-violating configuration — but
rcode resolution and resume load still run first and still abort
fatally. -/
theorem version_short_circuit (o : Options) (w : World)
    (hv : o.version = true) :
    (∀ e, parseOptionsFlow o w ≠ .fatalValidation e) ∧
    (∀ o2, parseOptionsFlow o w ≠ .ok o2) ∧
    ((configureRcodes o).1 = none →
      (configureResume (configureRcodes o).2 w).1 = none →
      parseOptionsFlow o w = .versionExit) ∧
    (∀ e, (configureRcodes o).1 = some e →
      parseOptionsFlow o w = .fatalRcodes e) ∧
    (∀ e, (configureRcodes o).1 = none →
      (configureResume (configureRcodes o).2 w).1 = some e →
      parseOptionsFlow o w = .fatalResume e) := by
  have hcv := configureRcodes_version o
  rcases hc : configureRcodes o with ⟨ec, o1⟩
  rw [hc] at hcv
  cases ec with
  | some e => simp [parseOptionsFlow, hc]
  | none =>
    have hrv := configureResume_version o1 w
    rcases hr : configureResume o1 w with ⟨er, o2⟩
    rw [hr] at hrv
    have hv2 : o2.version = true := by rw [hrv, hcv, hv]
    cases er with
    | some e => simp [parseOptionsFlow, hc, hr]
    | none => simp [parseOptionsFlow, hc, hr, hv2]

theorem version_short_circuit_witness :
    parseOptionsFlow { response := true, responseOnly := true, version := true }
      { resumeFileExists := false, resumeLoad := Except.ok {} }
      = .versionExit :=
  (version_short_circuit
    { response := true, responseOnly := true, version := true }
    { resumeFileExists := false, resumeLoad := Except.ok {} }
    (by decide)).2.2.1 (by decide) (by decide)

/-- C8: `shouldLoadResume` is true iff the resume flag is set and the
checkpoint file exists; `configureResume` deserialises the file exactly
in that case, propagating a load error to the caller, and in every other
case yields the empty default checkpoint with no error. -/
theorem resume_load_contract (o : Options) (w : World) :
    (shouldLoadResume o w = true ↔
      o.resume = true ∧ w.resumeFileExists = true) ∧
    (shouldLoadResume o w = false →
      configureResume o w = (none, { o with resumeCfg := {} })) ∧
    (shouldLoadResume o w = true →
      (∀ e, w.resumeLoad = .error e →
        configureResume o w = (some e, { o with resumeCfg := {} })) ∧
      (∀ cfg, w.resumeLoad = .ok cfg →
        configureResume o w = (none, { o with resumeCfg := cfg }))) := by
  refine ⟨by simp [shouldLoadResume], ?_, ?_⟩
  · intro h
    rw [shouldLoadResume] at h
    unfold configureResume
    rw [if_neg ?_]
    intro hcond
    rw [h] at hcond
    exact Bool.false_ne_true hcond
  · intro h
    rw [shouldLoadResume] at h
    constructor
    · intro e he
      unfold configureResume
      rw [if_pos h, he]
    · intro cfg hcfg
      unfold configureResume
      rw [if_pos h, hcfg]

theorem resume_load_contract_witness :
    configureResume { resume := true }
        { resumeFileExists := false, resumeLoad := Except.error "malformed" }
      = (none, { resume := true, resumeCfg := {} }) :=
  (resume_load_contract { resume := true }
    { resumeFileExists := false, resumeLoad := Except.error "malformed" }).2.1
    (by decide)

/-- C9: `ShouldSaveResume` returns true unconditionally, for every
configuration state, regardless of whether the resume flag was set. -/
theorem shouldSaveResume_always (o : Options) : shouldSaveResume o = true :=
  rfl

/-- C10: on any input on which `configureRcodes` succeeds, the resulting
rcode set depends only on the set of distinct comma-separated tokens:
any input whose tokens form the same set — a reordering or a repetition
of tokens — also succeeds and yields exactly the same rcode set. -/
theorem rcodes_depend_only_on_token_set (s t : String)
    (hset : (goSplitComma s).toFinset = (goSplitComma t).toFinset)
    (hs : (configureRcodes { rcode := s }).1 = none) :
    (configureRcodes { rcode := t }).1 = none ∧
    (configureRcodes { rcode := t }).2.rcodes
      = (configureRcodes { rcode := s }).2.rcodes := by
  have hoks := (configureRcodes_fst_none_iff { rcode := s }).mp hs
  have hmem : ∀ x : String, x ∈ goSplitComma s ↔ x ∈ goSplitComma t := by
    intro x
    constructor
    · intro hx
      exact List.mem_toFinset.mp (hset ▸ List.mem_toFinset.mpr hx)
    · intro hx
      exact List.mem_toFinset.mp (hset.symm ▸ List.mem_toFinset.mpr hx)
  have hokt : ∀ x ∈ goSplitComma t, tokenOk x = true :=
    fun x hx => hoks x ((hmem x).mpr hx)
  have hres : resolvedSet t = resolvedSet s := by
    ext rc
    simp only [resolvedSet, List.mem_toFinset, List.mem_filterMap]
    constructor
    · rintro ⟨a, ha, hc⟩
      exact ⟨a, (hmem a).mpr ha, hc⟩
    · rintro ⟨a, ha, hc⟩
      exact ⟨a, (hmem a).mp ha, hc⟩
  rw [configureRcodes_ok_char { rcode := s } hoks,
    configureRcodes_ok_char { rcode := t } hokt]
  refine ⟨rfl, ?_⟩
  show (if resolvedSet t = ∅ then {0} else resolvedSet t)
      = (if resolvedSet s = ∅ then {0} else resolvedSet s)
  rw [hres]

theorem rcodes_depend_only_on_token_set_witness :
    (configureRcodes { rcode := "nxdomain,noerror,noerror" }).1 = none ∧
    (configureRcodes { rcode := "nxdomain,noerror,noerror" }).2.rcodes
      = (configureRcodes { rcode := "noerror,nxdomain" }).2.rcodes :=
  rcodes_depend_only_on_token_set "noerror,nxdomain" "nxdomain,noerror,noerror"
    (by decide) (by decide)

end Dnsx
